import Mathlib

/-!
Verification development for the `data_analyzer` pipeline
(`data_processor.py` and `time_series_analyzer.py`).

The pipeline's tables are embedded shallowly:

* a pandas `Series`/column becomes a `List` (row order = registry order),
  with missing cells (`NaN` / `pd.NA`) modelled as `none`;
* the region-keys table becomes `List KeyRow`;
* Python functions that can raise become `Option`-valued functions, where
  `none` at the outermost level models an exception escaping the function
  (caught by the per-file handler in `process_csv_files`);
* numeric cell values are `ℚ` (exact rationals) where the Python code mixes
  ints and floats; Python `round` (banker's rounding) is modelled exactly on
  rationals.

String manipulation is modelled on `String.data : List Char`, because the
Python code's `str.replace` calls here only ever use single-character
patterns, and census/Redfin cell parsing only meets decimal literals.
-/

/-! ## Character and string utilities -/

/-- The apostrophe character, used by the keys data-quality filter
(`processed_df["key_row"].str.contains("'")` in `process_keys_data`). -/
def apoChar : Char := Char.ofNat 39

/-- Numeric value of a list of decimal digit characters, most significant
first (value of the empty list is 0). -/
def digitsVal (l : List Char) : ℕ :=
  l.foldl (fun a c => 10 * a + (c.toNat - ('0').toNat)) 0

/-- Models Python `s.replace(c, r)` for a single-character pattern `c`:
every occurrence of the character is replaced by `r`. -/
def replace_char (s : String) (c : Char) (r : String) : String :=
  String.mk (s.data.flatMap (fun ch => if ch = c then r.data else [ch]))

/-- Models Python `int(s)` on a string: optional leading minus sign followed
by decimal digits; anything else raises (`none`). (Python's tolerance for
surrounding whitespace and underscores is not exercised by this data.) -/
def py_int (s : String) : Option ℤ :=
  match s.data with
  | [] => none
  | c :: cs =>
    if c = '-' then
      if cs ≠ [] ∧ cs.all Char.isDigit then some (-(digitsVal cs : ℤ)) else none
    else
      if (c :: cs).all Char.isDigit then some ((digitsVal (c :: cs) : ℤ)) else none

/-- Models Python `int(float(s))` on the nonnegative decimal literals this
data can contain (`"ddd"`, `"ddd.ddd"`, `"ddd."`, `".ddd"`): the result is
the integer part (truncation; the values are nonnegative). Any other string
raises (`none`). -/
def pyIntFloatChars (l : List Char) : Option ℕ :=
  let ip := l.takeWhile Char.isDigit
  match l.dropWhile Char.isDigit with
  | [] => if ip.isEmpty then none else some (digitsVal ip)
  | c :: frac =>
    if c = '.' ∧ frac.all Char.isDigit ∧ (ip ≠ [] ∨ frac ≠ []) then
      some (digitsVal ip)
    else none

/-- Models `price.replace("$", "").replace("K", "000")` followed by
`int(float(...))` from `process_median_sale_price_data`. -/
def parse_price (s : String) : Option ℕ :=
  pyIntFloatChars (replace_char (replace_char s '$' ("")) 'K' ("000")).data

/-- Decides whether `pat` occurs as a contiguous substring of `s`
(character lists). -/
def listOccursB (pat : List Char) : List Char → Bool
  | [] => pat.isEmpty
  | c :: t => pat.isPrefixOf (c :: t) || listOccursB pat t

/-- Decides whether `pat` occurs as a contiguous substring of `s`. -/
def strOccurs (pat s : String) : Bool := listOccursB pat.data s.data

/-! ## Region key registry (`process_keys_data`, `find_key_row`) -/

/-- One row of the raw KEYS table (the columns the pipeline reads). -/
structure KeyRow where
  key_row : String
  region_type : String
  zillow_region_name : String
  alternative_name : String
deriving DecidableEq

/-- Embeds `process_keys_data`: keep only rows whose `region_type` is
`"state"`, drop rows whose `key_row` contains an apostrophe, and return the
`key_row` column. (The dropped `alternative_name` column does not affect the
returned column.) -/
def process_keys_data (rows : List KeyRow) : List String :=
  ((rows.filter (fun r => r.region_type == "state")).filter
      (fun r => !(r.key_row.data.contains apoChar))).map (fun r => r.key_row)

/-- Embeds `find_key_row`: the value of column `column` in the first row of
the keys table whose `key_row` equals `key`, or `none` when no row matches. -/
def find_key_row (keys : List KeyRow) (key : String) (column : KeyRow → String) :
    Option String :=
  (keys.find? (fun r => r.key_row == key)).map column

/-! ## Census readers (`process_census_population_data`) -/

/-- The single `"Total population"` (resp. `"Households"`) row of a census
table, as an association list from column name to cell; a `none` cell is a
`NaN` read from the file. -/
def CensusRow : Type := List (String × Option String)

/-- Cell of the census row under column `col` (`none` = column absent,
which raises a `KeyError` in the Python code). -/
def lookup_cell (cells : CensusRow) (col : String) : Option (Option String) :=
  (cells.find? (fun p => p.1 == col)).map (fun p => p.2)

/-- Embeds the body of the per-region loop of
`process_census_population_data` for one region id: find the region's
`zillow_region_name` alias, read column `alias ++ "!!Estimate"` of the
`"Total population"` row, strip commas and parse with `int`. Every failure
(missing alias, missing column, `NaN` cell, unparsable cell) raises in
Python; here it is `none`. -/
def extract_population (cells : CensusRow) (keys : List KeyRow) (id : String) :
    Option ℤ :=
  (find_key_row keys id KeyRow.zillow_region_name).bind fun aliasName =>
    (lookup_cell cells (aliasName ++ ("!!Estimate"))).bind fun cell =>
      cell.bind fun s => py_int (replace_char s ',' (""))

/-- Embeds `process_census_population_data` over the combined table's region
ids: the Python loop fills a dict region by region, and any exception while
processing one region escapes the whole function (there is no per-region
handler), so one failure yields `none` for the entire reader. -/
def process_census_population_data (cells : CensusRow) (keys : List KeyRow) :
    List String → Option (List (String × ℤ))
  | [] => some []
  | id :: rest =>
    match extract_population cells keys id with
    | none => none
    | some v =>
      (process_census_population_data cells keys rest).map (fun l => (id, v) :: l)

/-- Embeds the population stage of `process_csv_files`: on success the
reader's values are merged into the combined table; on an exception the
per-file `except` handler logs and continues, leaving the whole
`census_population` column absent. -/
def census_population_stage (cells : CensusRow) (keys : List KeyRow)
    (ids : List String) : List (String × Option ℤ) :=
  match process_census_population_data cells keys ids with
  | some vals => vals.map (fun p => (p.1, some p.2))
  | none => ids.map (fun id => (id, none))

/-! ## Sale-price reader (`process_median_sale_price_data`) -/

/-- The REDFIN table after the two-row-header fixup (`df.columns = df.iloc[0]`,
`df = df.iloc[1:]`): `dates` are the date column labels (`columns[1:]`,
oldest first), and each row is the region label (first column) together with
its cells, aligned with `dates`; a `none` cell is a `NaN`. -/
structure SPTable where
  dates : List String
  rows : List (String × List (Option String))

/-- Whether date column `j` holds a non-missing value in any row
(`processed_df[col].notna().any()`). -/
def column_has_data (t : SPTable) (j : ℕ) : Bool :=
  t.rows.any (fun r => ((r.2)[j]?.getD none).isSome)

/-- Embeds the `latest_date` loop: walk the date columns from most recent to
oldest and return the first with any non-missing value. -/
def sp_latest_date (t : SPTable) : Option String :=
  ((List.range t.dates.length).reverse.find? (fun j => column_has_data t j)).bind
    (fun j => t.dates[j]?)

/-- Embeds `processed_df[processed_df.iloc[:, 0] == key_row]` followed by
`.iloc[0]`: the first row whose region label equals the alias. -/
def find_sp_row (t : SPTable) (aliasName : String) : Option (List (Option String)) :=
  (t.rows.find? (fun r => r.1 == aliasName)).map (fun r => r.2)

/-- The per-cell availability test `pd.notna(price) and price != ""`. -/
def avail_cell (c : Option String) : Bool := c.isSome && decide (c ≠ some (""))

/-- Embeds the per-row scan: take the first available cell from most recent
to oldest and parse it; no available cell leaves the value `None`
(`some none`); a parse exception escapes (`none`). -/
def scan_row (cells : List (Option String)) : Option (Option ℕ) :=
  match cells.reverse.find? avail_cell with
  | some (some s) => (parse_price s).map some
  | some none => some none
  | none => some none

/-- Embeds the per-region body of `process_median_sale_price_data`:
`washington_dc` and `puerto_rico` are answered with hard-coded literals
before any lookup; otherwise the alias is resolved (an unresolved alias or
unmatched row yields `pd.NA`) and the row scanned. -/
def sp_region_value (t : SPTable) (keys : List KeyRow) (id : String) :
    Option (Option ℕ) :=
  if id = ("washington_dc") then some (some 565000)
  else if id = ("puerto_rico") then some (some 138000)
  else
    match find_key_row keys id KeyRow.zillow_region_name with
    | none => some none
    | some aliasName =>
      match find_sp_row t aliasName with
      | none => some none
      | some cells => scan_row cells

/-- The per-region loop of `process_median_sale_price_data`; as in the
census readers, an exception for one region escapes the whole function. -/
def sp_extract_all (t : SPTable) (keys : List KeyRow) :
    List String → Option (List (String × Option ℕ))
  | [] => some []
  | id :: rest =>
    match sp_region_value t keys id with
    | none => none
    | some v => (sp_extract_all t keys rest).map (fun l => (id, v) :: l)

/-- Embeds `process_median_sale_price_data`: the per-region values paired
with the most recent date column holding any data. -/
def process_median_sale_price_data (t : SPTable) (keys : List KeyRow)
    (ids : List String) : Option (List (String × Option ℕ) × Option String) :=
  (sp_extract_all t keys ids).map (fun vals => (vals, sp_latest_date t))

/-! ## Ranking (`process_rank_data`) -/

/-- Whether the cell `w?` beats value `v` under the requested direction:
with `ascending = true` smaller values rank first, otherwise larger values
rank first; a missing cell beats nothing (`na_option="keep"`). -/
def beats (ascending : Bool) (w? : Option ℚ) (v : ℚ) : Bool :=
  match w? with
  | some w => if ascending then decide (w < v) else decide (v < w)
  | none => false

/-- Embeds `Series.rank(ascending=..., method="min", na_option="keep")`:
a present value's rank is one plus the number of cells that strictly beat
it (pandas "min"/competition ranking); missing cells keep a missing rank. -/
def rank_min (vals : List (Option ℚ)) (ascending : Bool) : List (Option ℕ) :=
  vals.map (Option.map (fun v => 1 + vals.countP (fun w => beats ascending w v)))

/-- Embeds `get_ordinal` from `process_rank_data`: missing ranks print as
`"N/A"`, ranks 11..13 mod 100 take `"th"`, otherwise the suffix follows the
last digit. -/
def get_ordinal : Option ℕ → String
  | none => "N/A"
  | some n =>
    if 11 ≤ n % 100 ∧ n % 100 ≤ 13 then toString n ++ ("th")
    else if n % 10 = 1 then toString n ++ ("st")
    else if n % 10 = 2 then toString n ++ ("nd")
    else if n % 10 = 3 then toString n ++ ("rd")
    else toString n ++ ("th")

/-- Embeds `process_rank_data` applied to one metric column of the combined
table (row order preserved). -/
def process_rank_data (vals : List (Option ℚ)) (ascending : Bool) : List String :=
  (rank_min vals ascending).map get_ordinal

/-- The call site `process_rank_data(combined_df, "census_population",
ascending=False)`. -/
def population_rank_column (vals : List (Option ℚ)) : List String :=
  process_rank_data vals false

/-- The call site for `median_household_income_rank` (`ascending=False`). -/
def median_household_income_rank_column (vals : List (Option ℚ)) : List String :=
  process_rank_data vals false

/-- The call site for `median_sale_price_rank` (`ascending=False`). -/
def median_sale_price_rank_column (vals : List (Option ℚ)) : List String :=
  process_rank_data vals false

/-- The call site for `house_affordability_ratio_rank` (`ascending=True`). -/
def house_affordability_ratio_rank_column (vals : List (Option ℚ)) : List String :=
  process_rank_data vals true

/-! ## Blurb generation (per combined-table row) -/

/-- Embeds the loop body of `process_blurb_population_data`: the rank string
is interpolated verbatim (note the double space from the source template). -/
def process_blurb_population_row (name rank : String) : String :=
  name ++ (" is ") ++ rank ++
    ("  in the nation in population among states, DC, and Puerto Rico.")

/-- Embeds the loop body of `process_blurb_median_household_income_data`:
a rank of `"1st"` is rendered as `"the highest"`. -/
def process_blurb_median_household_income_row (name rank : String) : String :=
  name ++ (" is ") ++ (if rank = ("1st") then ("the highest") else rank) ++
    (" in the nation in median household income among states, DC, and Puerto Rico.")

/-- Embeds the loop body of `process_blurb_median_sale_price_data`:
a rank of `"1st"` is rendered as `"single"`. -/
def process_blurb_median_sale_price_row (name rank date : String) : String :=
  name ++ (" has the ") ++ (if rank = ("1st") then ("single") else rank) ++
    (" highest median sale price on homes in the nation among states, DC, and Puerto Rico, according to Redfin data from ")
    ++ date ++ (".")

/-- Embeds the loop body of `process_blurb_house_affordability_ratio_data`:
the display name falls back to `"Region (<id>)"` when the registry lookup
returned `None`; a rank of `"1st"` is rendered as `"single"`; an `"N/A"`
rank selects the short `N/A` blurb. (The `pd.isna(rank_value)` branch cannot
fire: the rank column always holds strings.) -/
def process_blurb_house_affordability_ratio_row (name? : Option String)
    (id rank date : String) : String :=
  let name := name?.getD (("Region (") ++ id ++ (")"))
  let rankText := if rank = ("1st") then ("single") else rank
  if rankText = ("N/A") then name ++ (" has an N/A house affordability ratio.")
  else
    name ++ (" has the ") ++ rankText ++
      (" lowest house affordability ratio in the nation among states, DC, and Puerto Rico, according to Redfin data from ")
      ++ date ++ (".")

/-! ## Column merge (`combine_data`) -/

/-- Embeds `combine_data` for a `Series` argument: the assignment
`combined_df[column_name] = data.values` strips the index and writes the
values positionally, so row `i` of the combined table receives value `i` of
the reader's output whatever its region key; pandas raises a length-mismatch
`ValueError` (here `none`) when the value count differs from the row count
of the (non-empty) combined table. -/
def combine_data {α : Type} (data : List (String × α)) (ids : List String) :
    Option (List (String × α)) :=
  if data.length = ids.length then some (ids.zip (data.map (fun p => p.2)))
  else none

/-- Modelled from the spec's words, for refinement comparison with
`combine_data` (the code's merge): "merged column-by-column by region id
(order-preserving merge: missing ids leave the column absent, extra ids in a
reader's output are ignored if not in the registry)". -/
def combine_data_by_id {α : Type} (data : List (String × α)) (ids : List String) :
    List (String × Option α) :=
  ids.map (fun id => (id, (data.find? (fun p => p.1 == id)).map (fun p => p.2)))

/-! ## Affordability ratio (`calculate_house_affordability_ratio`) -/

/-- Round-half-to-even of a rational to an integer (the rounding Python's
`round` performs; the Python call rounds an exact binary quotient, modelled
here as the exact rational quotient). -/
def roundHalfEven (q : ℚ) : ℤ :=
  let n : ℤ := ⌊q⌋
  if q - n < 1 / 2 then n
  else if 1 / 2 < q - n then n + 1
  else if 2 ∣ n then n else n + 1

/-- Models Python `round(x, 1)`: round to one decimal place, ties to even. -/
def pyRound1 (q : ℚ) : ℚ := (roundHalfEven (10 * q) : ℚ) / 10

/-- Embeds the per-row lambda of `calculate_house_affordability_ratio`:
`round(sale / income, 1)` when both cells are present, else `pd.NA`.
(Python raises `ZeroDivisionError` on a zero income; the claims only touch
nonzero incomes, so the rational division convention is never relied on.) -/
def calculate_house_affordability_ratio (sale income : Option ℚ) : Option ℚ :=
  match sale, income with
  | some s, some m => some (pyRound1 (s / m))
  | _, _ => none

/-! ## Time-series growth (`calculate_growth_rates`) -/

/-- Embeds `pct_change(periods, axis=1, fill_method=None) * 100` evaluated at the
most recent date column (`.iloc[:, -1]`) for one region's chronological
series: defined only when the series has a column `periods` back and both
that cell and the latest cell are present — no back-filling. -/
def growth_at (series : List (Option ℚ)) (periods : ℕ) : Option ℚ :=
  if periods + 1 ≤ series.length then
    (series[series.length - 1]?.getD none).bind fun a =>
      (series[series.length - 1 - periods]?.getD none).map fun b =>
        (a / b - 1) * 100
  else none

/-- Embeds `calculate_growth_rates` for one region: the `mom_growth` and
`yoy_growth` cells of its row of the returned frame. -/
def calculate_growth_rates (series : List (Option ℚ)) : Option ℚ × Option ℚ :=
  (growth_at series 1, growth_at series 12)

/-! ## Helper lemmas -/

theorem data_append (s t : String) : (s ++ t).data = s.data ++ t.data := rfl

theorem append_two_ne_NA (x sfx : String) (c d : Char) (hs : sfx.data = [c, d])
    (hd : d ≠ 'A') : x ++ sfx ≠ ("N/A") := by
  intro h
  have h2 : x.data ++ [c, d] = ['N', '/', 'A'] := by
    have h3 := congrArg String.data h
    rw [data_append, hs] at h3
    exact h3
  have h4 := congrArg List.reverse h2
  simp [List.reverse_append] at h4
  exact hd h4.1

theorem get_ordinal_some_ne_NA (n : ℕ) : get_ordinal (some n) ≠ ("N/A") := by
  simp only [get_ordinal]
  split
  · exact append_two_ne_NA _ _ 't' 'h' rfl (by decide)
  · split
    · exact append_two_ne_NA _ _ 's' 't' rfl (by decide)
    · split
      · exact append_two_ne_NA _ _ 'n' 'd' rfl (by decide)
      · split
        · exact append_two_ne_NA _ _ 'r' 'd' rfl (by decide)
        · exact append_two_ne_NA _ _ 't' 'h' rfl (by decide)

/-- Claim C2: for every region row and ranked metric column, the rank string
is the sentinel "N/A" exactly when the underlying metric value is absent;
absent values never get a numeric ordinal and present values never get
"N/A". -/
theorem C2_rank_NA_iff_missing (ascending : Bool) (vals : List (Option ℚ)) (i : ℕ) :
    (process_rank_data vals ascending)[i]? = some ("N/A") ↔ vals[i]? = some none := by
  unfold process_rank_data rank_min
  rw [List.getElem?_map, List.getElem?_map]
  cases h : vals[i]? with
  | none => simp
  | some w =>
    cases w with
    | none => simp [get_ordinal]
    | some v =>
      simp only [Option.map_some']
      constructor
      · intro heq
        exact absurd (Option.some.inj heq) (get_ordinal_some_ne_NA _)
      · intro hh
        cases hh

theorem C2_rank_NA_iff_missing_witness :
    (process_rank_data [some 5, none] false)[1]? = some ("N/A") :=
  (C2_rank_NA_iff_missing false [some 5, none] 1).mpr rfl

/-- Claim C8: the affordability ratio equals round(sale_price / income, 1)
when both inputs are present and is absent when either is absent; in
particular sale 300000 with income 60000 yields 5.0. -/
theorem C8_affordability_round :
    (∀ sale income : Option ℚ,
        ( calculate_house_affordability_ratio sale income).isSome
          ↔ (sale.isSome ∧ income.isSome))
  ∧ (∀ s m : ℚ, m ≠ 0 →
        calculate_house_affordability_ratio (some s) (some m)
          = some (pyRound1 (s / m)))
  ∧ calculate_house_affordability_ratio (some 300000) (some 60000) = some 5 := by
  refine ⟨?_, ?_, ?_⟩
  · intro sale income
    cases sale <;> cases income <;>
      simp [ calculate_house_affordability_ratio]
  · intro s m _
    rfl
  · show some (pyRound1 ((300000 : ℚ) / 60000)) = some 5
    norm_num [pyRound1, roundHalfEven]

theorem C8_affordability_round_witness :
    calculate_house_affordability_ratio (some 300000) (some 60000)
      = some (pyRound1 ((300000 : ℚ) / 60000)) :=
  C8_affordability_round.2.1 300000 60000 (by norm_num)

/-- Claim C10: growth figures are computed only at the most recent date:
mom = (latest/previous - 1) * 100 and yoy = (latest/value 12 back - 1) * 100,
each absent when the needed prior value is missing (no back-filling);
prices [100000, 110000] give mom 10.0, and yoy is absent with fewer than 13
periods. -/
theorem C10_growth_rates :
    (∀ (series : List (Option ℚ)) (a b : ℚ), 2 ≤ series.length →
        series[series.length - 1]? = some (some a) →
        series[series.length - 2]? = some (some b) →
        (calculate_growth_rates series).1 = some ((a / b - 1) * 100))
  ∧ (∀ series : List (Option ℚ),
        series[series.length - 1]? = some none ∨
          series[series.length - 2]? = some none ∨ series.length < 2 →
        (calculate_growth_rates series).1 = none)
  ∧ (∀ (series : List (Option ℚ)) (a b : ℚ), 13 ≤ series.length →
        series[series.length - 1]? = some (some a) →
        series[series.length - 13]? = some (some b) →
        (calculate_growth_rates series).2 = some ((a / b - 1) * 100))
  ∧ (∀ series : List (Option ℚ), series.length < 13 →
        (calculate_growth_rates series).2 = none)
  ∧ calculate_growth_rates [some 100000, some 110000] = (some 10, none) := by
  refine ⟨?_, ?_, ?_, ?_, ?_⟩
  · intro series a b hlen h1 h2
    show growth_at series 1 = _
    unfold growth_at
    rw [if_pos (by omega)]
    have he : series.length - 1 - 1 = series.length - 2 := by omega
    rw [he, h1, h2]
    rfl
  · intro series h
    show growth_at series 1 = none
    unfold growth_at
    rcases h with h | h | h
    · by_cases hc : 1 + 1 ≤ series.length
      · rw [if_pos hc, h]; rfl
      · rw [if_neg hc]
    · by_cases hc : 1 + 1 ≤ series.length
      · rw [if_pos hc]
        have he : series.length - 1 - 1 = series.length - 2 := by omega
        rw [he, h]
        cases series[series.length - 1]?.getD none <;> rfl
      · rw [if_neg hc]
    · rw [if_neg (by omega)]
  · intro series a b hlen h1 h2
    show growth_at series 12 = _
    unfold growth_at
    rw [if_pos (by omega)]
    have he : series.length - 1 - 12 = series.length - 13 := by omega
    rw [he, h1, h2]
    rfl
  · intro series hlen
    show growth_at series 12 = none
    unfold growth_at
    rw [if_neg (by omega)]
  · have h1 : growth_at [some 100000, some 110000] 1 = some 10 := by
      unfold growth_at
      norm_num
    have h2 : growth_at [some 100000, some 110000] 12 = none := by
      unfold growth_at
      norm_num
    show (growth_at [some 100000, some 110000] 1,
        growth_at [some 100000, some 110000] 12) = (some 10, none)
    rw [h1, h2]

theorem C10_growth_rates_witness :
    (calculate_growth_rates [some 100000, some 110000]).1
      = some ((((110000 : ℚ) / 100000) - 1) * 100) :=
  C10_growth_rates.1 [some 100000, some 110000] 110000 100000 (by decide) rfl rfl

theorem sp_extract_all_mem (t : SPTable) (keys : List KeyRow) (ids : List String) :
    ∀ (vals : List (String × Option ℕ)) (id : String) (v : Option ℕ),
      sp_extract_all t keys ids = some vals → (id, v) ∈ vals →
      sp_region_value t keys id = some v := by
  induction ids with
  | nil =>
    intro vals id v h hmem
    unfold sp_extract_all at h
    obtain rfl : ([] : List (String × Option ℕ)) = vals := Option.some.inj h
    cases hmem
  | cons x rest ih =>
    intro vals id v h hmem
    unfold sp_extract_all at h
    cases hx : sp_region_value t keys x with
    | none => rw [hx] at h; cases h
    | some w =>
      rw [hx] at h
      cases hr : sp_extract_all t keys rest with
      | none => rw [hr] at h; cases h
      | some l =>
        rw [hr] at h
        simp only [Option.map_some'] at h
        obtain rfl : (x, w) :: l = vals := Option.some.inj h
        rcases List.mem_cons.mp hmem with heq | hmem2
        · obtain ⟨rfl, rfl⟩ := Prod.mk.injEq x w id v |>.mp heq.symm
          exact hx
        · exact ih l id v hr hmem2

/-- Claim C6: the regions washington_dc and puerto_rico receive the fixed
sale prices 565000 and 138000 on every source table, without any lookup in
the source — whenever the reader produces its output, their values are these
constants, identically for every source table content. -/
theorem C6_hardcoded_dc_pr :
    (∀ (t : SPTable) (keys : List KeyRow),
        sp_region_value t keys ("washington_dc") = some (some 565000)
      ∧ sp_region_value t keys ("puerto_rico") = some (some 138000))
  ∧ (∀ (t : SPTable) (keys : List KeyRow) (ids : List String)
        (vals : List (String × Option ℕ)) (d : Option String) (v : Option ℕ),
        process_median_sale_price_data t keys ids = some (vals, d) →
        (((("washington_dc"), v) ∈ vals → v = some 565000)
          ∧ ((("puerto_rico"), v) ∈ vals → v = some 138000))) := by
  have hdc : ∀ (t : SPTable) (keys : List KeyRow),
      sp_region_value t keys ("washington_dc") = some (some 565000) := by
    intro t keys
    unfold sp_region_value
    rw [if_pos rfl]
  have hpr : ∀ (t : SPTable) (keys : List KeyRow),
      sp_region_value t keys ("puerto_rico") = some (some 138000) := by
    intro t keys
    unfold sp_region_value
    rw [if_neg (by decide), if_pos rfl]
  refine ⟨fun t keys => ⟨hdc t keys, hpr t keys⟩, ?_⟩
  intro t keys ids vals d v h
  have hvals : sp_extract_all t keys ids = some vals := by
    unfold process_median_sale_price_data at h
    cases he : sp_extract_all t keys ids with
    | none => rw [he] at h; cases h
    | some l =>
      rw [he] at h
      simp only [Option.map_some'] at h
      have h2 := Option.some.inj h
      rw [Prod.mk.injEq] at h2
      rw [h2.1]
  constructor
  · intro hmem
    have hv := sp_extract_all_mem t keys ids vals _ v hvals hmem
    rw [hdc t keys] at hv
    exact (Option.some.inj hv).symm
  · intro hmem
    have hv := sp_extract_all_mem t keys ids vals _ v hvals hmem
    rw [hpr t keys] at hv
    exact (Option.some.inj hv).symm

theorem C6_hardcoded_dc_pr_witness :
    ((some 565000 : Option ℕ) = some 565000)
      ∧ ((some 138000 : Option ℕ) = some 138000) := by
  have h := C6_hardcoded_dc_pr.2 ⟨[], []⟩ []
      [("washington_dc"), ("puerto_rico")]
      [(("washington_dc"), some 565000), (("puerto_rico"), some 138000)] none
  exact ⟨(h (some 565000) rfl).1 (by simp),
    (h (some 138000) rfl).2 (by simp)⟩

/-- Claim C4 as stated is false at a concrete input: `process_keys_data`
performs only the state filter and the apostrophe filter and adds no
hard-coded rows, so on a keys table holding a single state row neither
washington_dc nor puerto_rico appears in the result. -/
theorem C4_counterexample :
    ¬ (∀ rows : List KeyRow,
        ("washington_dc") ∈ process_keys_data rows
          ∧ ("puerto_rico") ∈ process_keys_data rows) := by
  intro h
  have h1 := (h [⟨"alabama", "state", "Alabama", "Alabama"⟩]).1
  revert h1
  decide

/-- Claim C4 amended: Region Key Registry load returns exactly the rows
whose region_type equals "state" minus any row whose id contains an
apostrophe, and nothing else — DC and Puerto Rico appear only when the input
itself carries them as state-typed rows. -/
theorem C4_keys_filter (rows : List KeyRow) (k : String) :
    k ∈ process_keys_data rows ↔
      ∃ r ∈ rows, r.key_row = k ∧ r.region_type = ("state")
        ∧ r.key_row.data.contains apoChar = false := by
  unfold process_keys_data
  simp only [List.mem_map, List.mem_filter]
  constructor
  · rintro ⟨r, ⟨⟨hr, hstate⟩, hapo⟩, rfl⟩
    exact ⟨r, hr, rfl, by simpa using hstate, by simpa using hapo⟩
  · rintro ⟨r, hr, rfl, hstate, hapo⟩
    exact ⟨r, ⟨⟨hr, by simpa using hstate⟩, by simpa using hapo⟩, rfl⟩

theorem C4_keys_filter_witness :
    ("alabama") ∈ process_keys_data [⟨"alabama", "state", "Alabama", "Alabama"⟩] :=
  (C4_keys_filter [⟨"alabama", "state", "Alabama", "Alabama"⟩] ("alabama")).mpr
    ⟨⟨"alabama", "state", "Alabama", "Alabama"⟩, by simp, rfl, rfl, by decide⟩

/-- Claim C5 as stated is false at a concrete input: a failed extraction for
one region (here `bravo`, whose census column is absent) is not scoped to
that region — the exception escapes the reader and the per-file handler
leaves the whole column missing, so `alabama`, whose own extraction
succeeds, is missing from the output as well. -/
theorem C5_counterexample :
    ¬ (∀ (cells : CensusRow) (keys : List KeyRow) (ids : List String)
        (id : String) (v : ℤ), id ∈ ids →
        extract_population cells keys id = some v →
        (id, some v) ∈ census_population_stage cells keys ids) := by
  intro h
  have h1 := h [(("Alabama!!Estimate"), some ("5,024,279"))]
      [⟨"alabama", "state", "Alabama", "Alabama"⟩,
        ⟨"bravo", "state", "Bravo", "Bravo"⟩]
      [("alabama"), ("bravo")] ("alabama") 5024279 (by decide) (by decide)
  revert h1
  decide

theorem process_census_of_failure (cells : CensusRow) (keys : List KeyRow) :
    ∀ ids : List String, (∃ id ∈ ids, extract_population cells keys id = none) →
      process_census_population_data cells keys ids = none := by
  intro ids
  induction ids with
  | nil => rintro ⟨id, hmem, _⟩; cases hmem
  | cons x rest ih =>
    rintro ⟨id, hmem, hfail⟩
    unfold process_census_population_data
    cases hx : extract_population cells keys x with
    | none => rfl
    | some v =>
      have hid : id ∈ rest := by
        rcases List.mem_cons.mp hmem with rfl | h2
        · rw [hx] at hfail; cases hfail
        · exact h2
      rw [ih ⟨id, hid, hfail⟩]
      rfl

theorem process_census_of_success (cells : CensusRow) (keys : List KeyRow) :
    ∀ ids : List String, (∀ id ∈ ids, (extract_population cells keys id).isSome) →
      ∃ vals, process_census_population_data cells keys ids = some vals ∧
        vals.map (fun p => (p.1, some p.2))
          = ids.map (fun id => (id, extract_population cells keys id)) := by
  intro ids
  induction ids with
  | nil => intro _; exact ⟨[], rfl, rfl⟩
  | cons x rest ih =>
    intro hall
    obtain ⟨v, hv⟩ := Option.isSome_iff_exists.mp (hall x (List.mem_cons_self x rest))
    obtain ⟨vals, hvals, hmap⟩ := ih (fun id hid => hall id (List.mem_cons_of_mem x hid))
    refine ⟨(x, v) :: vals, ?_, ?_⟩
    · unfold process_census_population_data
      rw [hv, hvals]
      rfl
    · simp only [List.map_cons, hmap, hv]

/-- Claim C5 amended: a failure to extract one region's value aborts the
entire census source — the exception is caught by the per-file handler and
the whole column comes out absent for every region; only when every region's
extraction succeeds does each region receive its own extracted value. -/
theorem C5_census_failure_scope :
    (∀ (cells : CensusRow) (keys : List KeyRow) (ids : List String),
        (∃ id ∈ ids, extract_population cells keys id = none) →
        census_population_stage cells keys ids = ids.map (fun id => (id, none)))
  ∧ (∀ (cells : CensusRow) (keys : List KeyRow) (ids : List String),
        (∀ id ∈ ids, (extract_population cells keys id).isSome) →
        census_population_stage cells keys ids
          = ids.map (fun id => (id, extract_population cells keys id))) := by
  constructor
  · intro cells keys ids hfail
    unfold census_population_stage
    rw [process_census_of_failure cells keys ids hfail]
  · intro cells keys ids hall
    obtain ⟨vals, hvals, hmap⟩ := process_census_of_success cells keys ids hall
    unfold census_population_stage
    rw [hvals]
    exact hmap

theorem C5_census_failure_scope_witness :
    census_population_stage [(("Alabama!!Estimate"), some ("5,024,279"))]
      [⟨"alabama", "state", "Alabama", "Alabama"⟩,
        ⟨"bravo", "state", "Bravo", "Bravo"⟩]
      [("alabama"), ("bravo")]
      = [(("alabama"), none), (("bravo"), none)] := by
  exact (C5_census_failure_scope.1 _ _ _
    ⟨("bravo"), by decide, by decide⟩).trans (by decide)

/-- Claim C3 as stated is false at a concrete input: `combine_data` writes
`data.values` into the column, which strips the reader output's region keys
and assigns positionally — with combined-table ids [a, b] and a reader
output keyed [b, a], row a receives the value keyed b instead of its own. -/
theorem C3_counterexample :
    ¬ (∀ (data : List (String × ℤ)) (ids : List String)
        (out : List (String × ℤ)), combine_data data ids = some out →
        ∀ id v, (id, v) ∈ data → id ∈ ids → (id, v) ∈ out) := by
  intro h
  have h1 := h [(("b"), 10), (("a"), 20)] [("a"), ("b")]
      [(("a"), 10), (("b"), 20)] (by decide) ("a") 20 (by decide) (by decide)
  revert h1
  decide

theorem zip_getElem_eq_some {α β : Type} :
    ∀ (l1 : List α) (l2 : List β) (i : ℕ) (a : α) (b : β),
      l1[i]? = some a → l2[i]? = some b → (l1.zip l2)[i]? = some (a, b) := by
  intro l1
  induction l1 with
  | nil => intro l2 i a b h1 _; simp at h1
  | cons x t ih =>
    intro l2 i a b h1 h2
    cases l2 with
    | nil => simp at h2
    | cons y s =>
      cases i with
      | zero =>
        rw [List.getElem?_cons_zero] at h1 h2
        obtain rfl : x = a := Option.some.inj h1
        obtain rfl : y = b := Option.some.inj h2
        rw [List.zip_cons_cons, List.getElem?_cons_zero]
      | succ n =>
        rw [List.getElem?_cons_succ] at h1 h2
        rw [List.zip_cons_cons, List.getElem?_cons_succ]
        exact ih s n a b h1 h2

theorem zip_fst_snd {α : Type} :
    ∀ data : List (String × α),
      (data.map (fun p => p.1)).zip (data.map (fun p => p.2)) = data := by
  intro data
  induction data with
  | nil => rfl
  | cons p t ih => simp [List.zip_cons_cons, ih]

/-- Claim C3 amended: the merge is positional, not id-aligned — when the
reader's output has as many values as the combined table has rows, row i
receives value i whatever its key (so each region receives its own value
exactly when the reader's output is keyed in combined-table row order, as
every reader of this pipeline produces it), and any length mismatch raises
pandas' length-mismatch ValueError instead of leaving columns absent or
ignoring extras. -/
theorem C3_combine_positional :
    (∀ (α : Type) (data : List (String × α)) (ids : List String)
        (out : List (String × α)), combine_data data ids = some out →
        out.length = ids.length ∧
          ∀ (i : ℕ) (a : String) (b : String × α), ids[i]? = some a →
            data[i]? = some b → out[i]? = some (a, b.2))
  ∧ (∀ (α : Type) (data : List (String × α)) (ids : List String),
        data.map (fun p => p.1) = ids → combine_data data ids = some data)
  ∧ (∀ (α : Type) (data : List (String × α)) (ids : List String),
        data.length ≠ ids.length → combine_data data ids = none) := by
  refine ⟨?_, ?_, ?_⟩
  · intro α data ids out h
    unfold combine_data at h
    by_cases hlen : data.length = ids.length
    · rw [if_pos hlen] at h
      obtain rfl : ids.zip (data.map (fun p => p.2)) = out := Option.some.inj h
      constructor
      · simp [List.length_zip, hlen]
      · intro i a b ha hb
        exact zip_getElem_eq_some ids (data.map (fun p => p.2)) i a b.2 ha
          (by rw [List.getElem?_map, hb]; rfl)
    · rw [if_neg hlen] at h
      cases h
  · intro α data ids h
    unfold combine_data
    rw [if_pos (by rw [← h, List.length_map])]
    rw [← h, zip_fst_snd]
  · intro α data ids h
    unfold combine_data
    rw [if_neg h]

theorem C3_combine_positional_witness :
    combine_data [(("a"), (1 : ℤ)), (("b"), 2)] [("a"), ("b")]
      = some [(("a"), 1), (("b"), 2)] :=
  C3_combine_positional.2.1 ℤ [(("a"), 1), (("b"), 2)] [("a"), ("b")] (by decide)

theorem string_data_ext (s t : String) (h : s.data = t.data) : s = t := by
  cases s
  cases t
  exact congrArg String.mk h

theorem strAppend_assoc (a b c : String) : (a ++ b) ++ c = a ++ (b ++ c) := by
  apply string_data_ext
  rw [data_append, data_append, data_append, data_append, List.append_assoc]

theorem listOccursB_append_right (pat t : List Char) (h : listOccursB pat t = true) :
    ∀ s : List Char, listOccursB pat (s ++ t) = true := by
  intro s
  induction s with
  | nil => exact h
  | cons c r ih =>
    show listOccursB pat (c :: (r ++ t)) = true
    simp only [listOccursB, Bool.or_eq_true]
    exact Or.inr ih

theorem strOccurs_append_right (pat s t : String)
    (h : listOccursB pat.data t.data = true) : strOccurs pat (s ++ t) = true := by
  unfold strOccurs
  rw [data_append]
  exact listOccursB_append_right pat.data t.data h s.data

theorem mem_of_isPrefixOf : ∀ (p l : List Char), p.isPrefixOf l = true →
    ∀ c ∈ p, c ∈ l := by
  intro p
  induction p with
  | nil => intro l _ c hc; cases hc
  | cons a t ih =>
    intro l h c hc
    cases l with
    | nil => simp [List.isPrefixOf] at h
    | cons b l2 =>
      simp only [List.isPrefixOf, Bool.and_eq_true, beq_iff_eq] at h
      rcases List.mem_cons.mp hc with rfl | hc2
      · rw [h.1]; exact List.mem_cons_self _ _
      · exact List.mem_cons_of_mem _ (ih l2 h.2 c hc2)

theorem mem_of_listOccursB (pat : List Char) :
    ∀ s : List Char, listOccursB pat s = true → ∀ c ∈ pat, c ∈ s := by
  intro s
  induction s with
  | nil =>
    intro h c hc
    unfold listOccursB at h
    rw [List.isEmpty_iff] at h
    subst h
    cases hc
  | cons b t ih =>
    intro h c hc
    unfold listOccursB at h
    rcases (Bool.or_eq_true _ _).mp h with h1 | h2
    · exact mem_of_isPrefixOf pat (b :: t) h1 c hc
    · exact List.mem_cons_of_mem _ (ih h2 c hc)

theorem strOccurs_eq_false (pat s : String) (c : Char) (hc : c ∈ pat.data)
    (hs : c ∉ s.data) : strOccurs pat s = false := by
  cases hb : strOccurs pat s with
  | false => rfl
  | true => exact absurd (mem_of_listOccursB pat.data s.data hb c hc) hs

/-- Claim C9: blurb generation substitutes the rank string "1st"
asymmetrically across metrics: the income blurb renders it as "the highest"
(and, for a display name without the digit 1, the income blurb does not
contain "1st"), the sale-price and affordability-ratio blurbs render it as
"single", and the population blurb keeps "1st" verbatim, so it contains
"1st". -/
theorem C9_blurb_first_substitution (name id date : String)
    (h1 : ('1') ∉ name.data) :
    (process_blurb_median_household_income_row name ("1st")
        = name ++ (" is ") ++ ("the highest")
          ++ (" in the nation in median household income among states, DC, and Puerto Rico."))
  ∧ strOccurs ("the highest")
      (process_blurb_median_household_income_row name ("1st")) = true
  ∧ strOccurs ("1st")
      (process_blurb_median_household_income_row name ("1st")) = false
  ∧ (process_blurb_median_sale_price_row name ("1st") date
        = name ++ (" has the ") ++ ("single")
          ++ (" highest median sale price on homes in the nation among states, DC, and Puerto Rico, according to Redfin data from ")
          ++ date ++ ("."))
  ∧ (process_blurb_house_affordability_ratio_row (some name) id ("1st") date
        = name ++ (" has the ") ++ ("single")
          ++ (" lowest house affordability ratio in the nation among states, DC, and Puerto Rico, according to Redfin data from ")
          ++ date ++ ("."))
  ∧ (process_blurb_population_row name ("1st")
        = name ++ (" is ") ++ ("1st")
          ++ ("  in the nation in population among states, DC, and Puerto Rico."))
  ∧ strOccurs ("1st") (process_blurb_population_row name ("1st")) = true := by
  have hinc : process_blurb_median_household_income_row name ("1st")
      = name ++ (" is ") ++ ("the highest")
        ++ (" in the nation in median household income among states, DC, and Puerto Rico.") := by
    unfold process_blurb_median_household_income_row
    rw [if_pos rfl]
  have hpop : process_blurb_population_row name ("1st")
      = name ++ (" is ") ++ ("1st")
        ++ ("  in the nation in population among states, DC, and Puerto Rico.") := rfl
  refine ⟨hinc, ?_, ?_, ?_, ?_, hpop, ?_⟩
  · rw [hinc, strAppend_assoc]
    exact strOccurs_append_right _ _ _ (by decide)
  · rw [hinc]
    apply strOccurs_eq_false _ _ '1' (by decide)
    intro hmem
    simp only [data_append] at hmem
    rcases List.mem_append.mp hmem with hm | h3
    · rcases List.mem_append.mp hm with hm2 | h2
      · rcases List.mem_append.mp hm2 with h0 | hx
        · exact h1 h0
        · exact absurd hx (by decide)
      · exact absurd h2 (by decide)
    · exact absurd h3 (by decide)
  · unfold process_blurb_median_sale_price_row
    rw [if_pos rfl]
  · simp [process_blurb_house_affordability_ratio_row]
  · rw [hpop, strAppend_assoc]
    exact strOccurs_append_right _ _ _ (by decide)

theorem C9_blurb_first_substitution_witness :
    strOccurs ("1st")
        (process_blurb_median_household_income_row ("California") ("1st")) = false
      ∧ strOccurs ("1st")
          (process_blurb_population_row ("California") ("1st")) = true := by
  have h := C9_blurb_first_substitution ("California") ("california")
    ("June 2024") (by decide)
  exact ⟨h.2.2.1, h.2.2.2.2.2.2⟩

theorem beats_irrefl (asc : Bool) (v : ℚ) : beats asc (some v) v = false := by
  cases asc <;> simp [beats]

theorem beats_trans (asc : Bool) (a b c : ℚ) (h1 : beats asc (some a) b = true)
    (h2 : beats asc (some b) c = true) : beats asc (some a) c = true := by
  cases asc <;> simp [beats] at h1 h2 ⊢
  · exact lt_trans h2 h1
  · exact lt_trans h1 h2

theorem beats_total (asc : Bool) (a b : ℚ) (h1 : beats asc (some a) b = false)
    (h2 : beats asc (some b) a = false) : a = b := by
  cases asc <;> simp [beats] at h1 h2
  · exact le_antisymm h1 h2
  · exact le_antisymm h2 h1

theorem countP_beats_next (asc : Bool) (v vn : ℚ)
    (hv : beats asc (some v) vn = true) :
    ∀ l : List (Option ℚ),
      (∀ w? ∈ l, ∀ w : ℚ, w? = some w →
        ¬(beats asc (some v) w = true ∧ beats asc (some w) vn = true)) →
      l.countP (fun w => beats asc w vn)
        = l.countP (fun w => beats asc w v)
          + l.countP (fun w => decide (w = some v)) := by
  intro l
  induction l with
  | nil => intro _; rfl
  | cons x t ih =>
    intro hnb
    have ht := ih (fun w? hw => hnb w? (List.mem_cons_of_mem x hw))
    rw [List.countP_cons, List.countP_cons, List.countP_cons, ht]
    cases x with
    | none => simp [beats]
    | some w =>
      by_cases hwv : beats asc (some w) v = true
      · have hwvn : beats asc (some w) vn = true := beats_trans asc w v vn hwv hv
        have hne : ((some w : Option ℚ) ≠ some v) := by
          intro he
          obtain rfl : w = v := Option.some.inj he
          rw [beats_irrefl] at hwv
          cases hwv
        simp only [hwvn, hwv, hne]
        simp
        all_goals omega
      · by_cases hwv2 : w = v
        · subst hwv2
          simp only [beats_irrefl, hv]
          simp
          all_goals omega
        · have hwvn : beats asc (some w) vn = false := by
            cases hb : beats asc (some w) vn with
            | false => rfl
            | true =>
              have hvw : beats asc (some v) w = false := by
                cases hb2 : beats asc (some v) w with
                | false => rfl
                | true =>
                  exact absurd ⟨hb2, hb⟩
                    (hnb (some w) (List.mem_cons_self _ _) w rfl)
              exact absurd (beats_total asc w v (Bool.eq_false_iff.mpr hwv) hvw) hwv2
          have hne : ((some w : Option ℚ) ≠ some v) :=
            fun he => hwv2 (Option.some.inj he)
          simp only [hwvn, Bool.eq_false_iff.mpr hwv, hne]
          simp

/-- Claim C1: ranking assigns ordinal ranks over the non-missing values with
minimum tie-breaking — tied values share the same (best) rank, and the next
distinct value's rank is the tie group's rank plus the tie group's size —
with rank 1 for the highest value in the population, income and sale-price
columns (descending) and for the lowest value in the affordability column
(ascending); sale prices {300000, 300000, 200000} rank descending as
["1st", "1st", "3rd"]. -/
theorem C1_rank_ordering :
    (∀ (asc : Bool) (vals : List (Option ℚ)) (i j : ℕ) (v : ℚ),
        vals[i]? = some (some v) → vals[j]? = some (some v) →
        (process_rank_data vals asc)[i]? = (process_rank_data vals asc)[j]?)
  ∧ (∀ (asc : Bool) (vals : List (Option ℚ)) (i j : ℕ) (v vn : ℚ) (ri : ℕ),
        vals[i]? = some (some v) → vals[j]? = some (some vn) →
        beats asc (some v) vn = true →
        (∀ w? ∈ vals, ∀ w : ℚ, w? = some w →
          ¬(beats asc (some v) w = true ∧ beats asc (some w) vn = true)) →
        (rank_min vals asc)[i]? = some (some ri) →
        (rank_min vals asc)[j]?
          = some (some (ri + vals.countP (fun w => decide (w = some v)))))
  ∧ (∀ (vals : List (Option ℚ)) (i : ℕ) (v : ℚ),
        vals[i]? = some (some v) →
        (∀ w? ∈ vals, ∀ w : ℚ, w? = some w → ¬ v < w) →
        (population_rank_column vals)[i]? = some ("1st")
          ∧ (median_household_income_rank_column vals)[i]? = some ("1st")
          ∧ (median_sale_price_rank_column vals)[i]? = some ("1st"))
  ∧ (∀ (vals : List (Option ℚ)) (i : ℕ) (v : ℚ),
        vals[i]? = some (some v) →
        (∀ w? ∈ vals, ∀ w : ℚ, w? = some w → ¬ w < v) →
        (house_affordability_ratio_rank_column vals)[i]? = some ("1st"))
  ∧ median_sale_price_rank_column [some 300000, some 300000, some 200000]
      = [("1st"), ("1st"), ("3rd")] := by
  refine ⟨?_, ?_, ?_, ?_, ?_⟩
  · intro asc vals i j v hi hj
    unfold process_rank_data rank_min
    rw [List.getElem?_map, List.getElem?_map, List.getElem?_map,
      List.getElem?_map, hi, hj]
  · intro asc vals i j v vn ri hi hj hbeat hnb hri
    unfold rank_min at hri ⊢
    rw [List.getElem?_map, hj]
    rw [List.getElem?_map, hi] at hri
    simp only [Option.map_some'] at hri ⊢
    have hri2 : 1 + vals.countP (fun w => beats asc w v) = ri :=
      Option.some.inj (Option.some.inj hri)
    have harith : 1 + (vals.countP (fun w => beats asc w v)
        + vals.countP (fun w => decide (w = some v)))
        = ri + vals.countP (fun w => decide (w = some v)) := by omega
    rw [countP_beats_next asc v vn hbeat vals hnb, harith]
  · intro vals i v hi hmax
    have hcount : vals.countP (fun w => beats false w v) = 0 := by
      rw [List.countP_eq_zero]
      intro a ha
      cases a with
      | none => simp [beats]
      | some w =>
        simp only [beats]
        simp only [Bool.false_eq_true, if_false, decide_eq_true_eq]
        exact hmax (some w) ha w rfl
    have key : (process_rank_data vals false)[i]? = some ("1st") := by
      unfold process_rank_data rank_min
      rw [List.getElem?_map, List.getElem?_map, hi]
      simp only [Option.map_some']
      rw [hcount]
      rfl
    exact ⟨key, key, key⟩
  · intro vals i v hi hmin
    have hcount : vals.countP (fun w => beats true w v) = 0 := by
      rw [List.countP_eq_zero]
      intro a ha
      cases a with
      | none => simp [beats]
      | some w =>
        simp only [beats]
        simp only [if_true, decide_eq_true_eq]
        exact hmin (some w) ha w rfl
    show (process_rank_data vals true)[i]? = some ("1st")
    unfold process_rank_data rank_min
    rw [List.getElem?_map, List.getElem?_map, hi]
    simp only [Option.map_some']
    rw [hcount]
    rfl
  · decide

theorem C1_rank_ordering_witness :
    (process_rank_data [some 300000, some 300000, some 200000] false)[0]?
        = (process_rank_data [some 300000, some 300000, some 200000] false)[1]?
      ∧ (rank_min [some 300000, some 300000, some 200000] false)[2]?
          = some (some (1 + ([some 300000, some 300000, some 200000]
              : List (Option ℚ)).countP (fun w => decide (w = some 300000)))) := by
  constructor
  · exact C1_rank_ordering.1 false _ 0 1 300000 rfl rfl
  · refine C1_rank_ordering.2.1 false _ 0 2 300000 200000 1 rfl rfl (by decide)
      ?_ (by decide)
    intro w? hw w he
    subst he
    rcases List.mem_cons.mp hw with h | hw2
    · obtain rfl := Option.some.inj h
      decide
    · rcases List.mem_cons.mp hw2 with h | hw3
      · obtain rfl := Option.some.inj h
        decide
      · rcases List.mem_cons.mp hw3 with h | hw4
        · obtain rfl := Option.some.inj h
          decide
        · cases hw4

theorem flatMap_replace_id (c : Char) (r : String) :
    ∀ l : List Char, (∀ x ∈ l, x ≠ c) →
      l.flatMap (fun ch => if ch = c then r.data else [ch]) = l := by
  intro l
  induction l with
  | nil => intro _; rfl
  | cons x t ih =>
    intro h
    show (if x = c then r.data else [x])
        ++ t.flatMap (fun ch => if ch = c then r.data else [ch]) = x :: t
    rw [if_neg (h x (List.mem_cons_self _ _)),
      ih (fun y hy => h y (List.mem_cons_of_mem _ hy))]
    rfl

theorem flatMap_replace_last (c : Char) (r : String) :
    ∀ l : List Char, (∀ x ∈ l, x ≠ c) →
      (l ++ [c]).flatMap (fun ch => if ch = c then r.data else [ch])
        = l ++ r.data := by
  intro l
  induction l with
  | nil =>
    intro _
    show (if c = c then r.data else [c])
        ++ ([] : List Char).flatMap (fun ch => if ch = c then r.data else [ch])
        = [] ++ r.data
    rw [if_pos rfl]
    simp
  | cons x t ih =>
    intro h
    show (if x = c then r.data else [x])
        ++ (t ++ [c]).flatMap (fun ch => if ch = c then r.data else [ch])
        = (x :: t) ++ r.data
    rw [if_neg (h x (List.mem_cons_self _ _)),
      ih (fun y hy => h y (List.mem_cons_of_mem _ hy))]
    rfl

theorem takeWhile_of_all {p : Char → Bool} :
    ∀ l : List Char, (∀ x ∈ l, p x = true) →
      l.takeWhile p = l ∧ l.dropWhile p = [] := by
  intro l
  induction l with
  | nil => intro _; exact ⟨rfl, rfl⟩
  | cons c t ih =>
    intro h
    have hc : p c = true := h c (List.mem_cons_self _ _)
    have ht := ih (fun x hx => h x (List.mem_cons_of_mem _ hx))
    constructor
    · rw [List.takeWhile_cons, hc]
      simp [ht.1]
    · rw [List.dropWhile_cons, hc]
      simp [ht.2]

theorem digitsVal_foldl :
    ∀ (l : List Char) (a : ℕ),
      l.foldl (fun a c => 10 * a + (c.toNat - ('0').toNat)) a
        = a * 10 ^ l.length + digitsVal l := by
  intro l
  induction l with
  | nil => intro a; simp [digitsVal]
  | cons c t ih =>
    intro a
    have h2 : digitsVal (c :: t)
        = (c.toNat - ('0').toNat) * 10 ^ t.length + digitsVal t := by
      show t.foldl (fun a c => 10 * a + (c.toNat - ('0').toNat))
          (10 * 0 + (c.toNat - ('0').toNat)) = _
      rw [ih]
      ring_nf
    show t.foldl (fun a c => 10 * a + (c.toNat - ('0').toNat))
        (10 * a + (c.toNat - ('0').toNat)) = _
    rw [ih, h2, List.length_cons]
    ring

theorem digitsVal_append_zeros (x : List Char) :
    digitsVal (x ++ [('0'), ('0'), ('0')]) = 1000 * digitsVal x := by
  show (x ++ [('0'), ('0'), ('0')]).foldl
      (fun a c => 10 * a + (c.toNat - ('0').toNat)) 0 = _
  rw [List.foldl_append]
  show 10 * (10 * (10 * (x.foldl (fun a c => 10 * a + (c.toNat - ('0').toNat)) 0)
      + (('0').toNat - ('0').toNat)) + (('0').toNat - ('0').toNat))
      + (('0').toNat - ('0').toNat) = 1000 * digitsVal x
  rw [Nat.sub_self]
  show 10 * (10 * (10 * digitsVal x + 0) + 0) + 0 = 1000 * digitsVal x
  ring

theorem parse_price_dollar_K (sd : String)
    (hdig : ∀ x ∈ sd.data, x.isDigit = true) :
    parse_price (("$") ++ sd ++ ("K")) = some (1000 * digitsVal sd.data) := by
  have hnoD : ∀ x ∈ sd.data, x ≠ '$' := by
    intro x hx he
    have h2 := hdig x hx
    rw [he] at h2
    exact absurd h2 (by decide)
  have hnoK : ∀ x ∈ sd.data, x ≠ 'K' := by
    intro x hx he
    have h2 := hdig x hx
    rw [he] at h2
    exact absurd h2 (by decide)
  have hd1 : (("$") ++ sd ++ ("K")).data = '$' :: (sd.data ++ ['K']) := by
    rw [data_append, data_append]
    rfl
  have e1 : replace_char ((("$") ++ sd ++ ("K"))) '$' ("")
      = String.mk (sd.data ++ ['K']) := by
    unfold replace_char
    rw [hd1]
    show String.mk ((if ('$' : Char) = '$' then (("") : String).data else ['$'])
      ++ (sd.data ++ ['K']).flatMap
          (fun ch => if ch = '$' then (("") : String).data else [ch])) = _
    rw [if_pos rfl]
    rw [flatMap_replace_id '$' ("") (sd.data ++ ['K'])]
    · rfl
    · intro x hx
      rcases List.mem_append.mp hx with h | h
      · exact hnoD x h
      · rcases List.mem_cons.mp h with rfl | h2
        · decide
        · cases h2
  have e2 : replace_char (String.mk (sd.data ++ ['K'])) 'K' ("000")
      = String.mk (sd.data ++ [('0'), ('0'), ('0')]) := by
    unfold replace_char
    show String.mk ((sd.data ++ ['K']).flatMap
      (fun ch => if ch = 'K' then (("000") : String).data else [ch])) = _
    rw [flatMap_replace_last 'K' ("000") sd.data hnoK]
  unfold parse_price
  rw [e1, e2]
  show pyIntFloatChars (sd.data ++ [('0'), ('0'), ('0')]) = _
  have hall : ∀ x ∈ sd.data ++ [('0'), ('0'), ('0')], Char.isDigit x = true := by
    intro x hx
    rcases List.mem_append.mp hx with h | h
    · exact hdig x h
    · rcases List.mem_cons.mp h with rfl | h2
      · decide
      · rcases List.mem_cons.mp h2 with rfl | h3
        · decide
        · rcases List.mem_cons.mp h3 with rfl | h4
          · decide
          · cases h4
  obtain ⟨htake, hdrop⟩ := takeWhile_of_all (sd.data ++ [('0'), ('0'), ('0')]) hall
  unfold pyIntFloatChars
  rw [htake, hdrop]
  show (if (sd.data ++ [('0'), ('0'), ('0')]).isEmpty then none
      else some (digitsVal (sd.data ++ [('0'), ('0'), ('0')]))) = _
  rw [if_neg (by simp), digitsVal_append_zeros]

theorem find_rev_range (p : ℕ → Bool) :
    ∀ (n j : ℕ), j < n → p j = true → (∀ k, j < k → k < n → p k = false) →
      (List.range n).reverse.find? p = some j := by
  intro n
  induction n with
  | zero => intro j hj; exact absurd hj (Nat.not_lt_zero j)
  | succ m ih =>
    intro j hj hp hk
    rw [List.range_succ, List.reverse_append, List.reverse_singleton,
      List.singleton_append]
    by_cases hjm : j = m
    · subst hjm
      exact List.find?_cons_of_pos _ hp
    · rw [List.find?_cons_of_neg _ (by simp [hk m (by omega) (by omega)])]
      exact ih j (by omega) hp (fun k h1 h2 => hk k h1 (by omega))

theorem find_rev_cells {α : Type} (p : α → Bool) :
    ∀ (l : List α) (j : ℕ) (c : α), l[j]? = some c → p c = true →
      (∀ k c2, j < k → l[k]? = some c2 → p c2 = false) →
      l.reverse.find? p = some c := by
  intro l
  induction l using List.reverseRecOn with
  | nil => intro j c h; simp at h
  | append_singleton t a ih =>
    intro j c h hp hk
    rw [List.reverse_append, List.reverse_singleton, List.singleton_append]
    have hjlt : j < t.length + 1 := by
      by_contra hge
      have hlen : (t ++ [a]).length ≤ j := by
        simp only [List.length_append, List.length_singleton]
        omega
      rw [List.getElem?_eq_none hlen] at h
      cases h
    by_cases hja : j = t.length
    · subst hja
      have ha : (t ++ [a])[t.length]? = some a := List.getElem?_concat_length t a
      have hac : a = c := Option.some.inj (ha.symm.trans h)
      subst hac
      exact List.find?_cons_of_pos _ hp
    · have hjt : j < t.length := by omega
      have ht : t[j]? = some c := by
        rw [List.getElem?_append] at h
        rwa [if_pos hjt] at h
      have hpa : p a = false :=
        hk t.length a (by omega) (List.getElem?_concat_length t a)
      rw [List.find?_cons_of_neg _ (by simp [hpa])]
      refine ih j c ht hp ?_
      intro k c2 h1 h2
      have hkt : k < t.length := by
        by_contra hge
        rw [List.getElem?_eq_none (Nat.le_of_not_lt hge)] at h2
        cases h2
      exact hk k c2 h1 (by rw [List.getElem?_append, if_pos hkt]; exact h2)

/-- Claim C7: for a state region whose alias matches a source row, the
extracted sale price is the first non-empty, non-NA cell scanning the date
columns from most recent to oldest, parsed by stripping the leading dollar
sign and expanding the trailing K (thousands) into an integer; and the
reader also returns the most recent column of the whole table holding any
non-missing value. -/
theorem C7_sale_price_scan :
    (∀ (t : SPTable) (keys : List KeyRow) (id aliasName : String)
        (cells : List (Option String)) (j : ℕ) (sd : String),
        id ≠ ("washington_dc") → id ≠ ("puerto_rico") →
        find_key_row keys id KeyRow.zillow_region_name = some aliasName →
        find_sp_row t aliasName = some cells →
        cells[j]? = some (some (("$") ++ sd ++ ("K"))) →
        (∀ x ∈ sd.data, x.isDigit = true) →
        (∀ k c2, j < k → cells[k]? = some c2 → c2 = none ∨ c2 = some ("")) →
        sp_region_value t keys id = some (some (1000 * digitsVal sd.data)))
  ∧ (∀ (t : SPTable) (j : ℕ), j < t.dates.length → column_has_data t j = true →
        (∀ k, j < k → k < t.dates.length → column_has_data t k = false) →
        sp_latest_date t = t.dates[j]?)
  ∧ (∀ (t : SPTable) (keys : List KeyRow) (ids : List String)
        (vals : List (String × Option ℕ)) (d : Option String),
        process_median_sale_price_data t keys ids = some (vals, d) →
        d = sp_latest_date t
          ∧ ∀ id v, (id, v) ∈ vals → sp_region_value t keys id = some v) := by
  refine ⟨?_, ?_, ?_⟩
  · intro t keys id aliasName cells j sd hid1 hid2 halias hrow hcell hdig hafter
    simp only [sp_region_value, if_neg hid1, if_neg hid2, halias, hrow]
    have hstr_ne : (("$") ++ sd ++ ("K")) ≠ ("") := by
      intro he
      have h2 := congrArg String.data he
      rw [data_append, data_append] at h2
      simp at h2
    have hfind : cells.reverse.find? avail_cell
        = some (some (("$") ++ sd ++ ("K"))) := by
      refine find_rev_cells avail_cell cells j _ hcell ?_ ?_
      · simp [avail_cell, hstr_ne]
      · intro k c2 h1 h2
        rcases hafter k c2 h1 h2 with rfl | rfl
        · rfl
        · decide
    simp only [scan_row, hfind]
    rw [parse_price_dollar_K sd hdig]
    rfl
  · intro t j hj hdata hafter
    unfold sp_latest_date
    rw [find_rev_range (fun k => column_has_data t k) t.dates.length j hj
      hdata hafter]
    rfl
  · intro t keys ids vals d h
    have hvals : sp_extract_all t keys ids = some vals ∧ d = sp_latest_date t := by
      unfold process_median_sale_price_data at h
      cases he : sp_extract_all t keys ids with
      | none => rw [he] at h; cases h
      | some l =>
        rw [he] at h
        simp only [Option.map_some'] at h
        have h2 := Option.some.inj h
        rw [Prod.mk.injEq] at h2
        exact ⟨by rw [h2.1], h2.2.symm⟩
    exact ⟨hvals.2,
      fun id v hm => sp_extract_all_mem t keys ids vals id v hvals.1 hm⟩

theorem C7_sale_price_scan_witness :
    sp_region_value
        ⟨[("January 2021"), ("February 2021")],
          [(("Alabama"), [some ("$100K"), none])]⟩
        [⟨"alabama", "state", "Alabama", "Alabama"⟩] ("alabama")
        = some (some (1000 * digitsVal ("100").data))
      ∧ sp_latest_date
          ⟨[("January 2021"), ("February 2021")],
            [(("Alabama"), [some ("$100K"), none])]⟩
          = some ("January 2021") := by
  constructor
  · refine C7_sale_price_scan.1
      ⟨[("January 2021"), ("February 2021")],
        [(("Alabama"), [some ("$100K"), none])]⟩
      [⟨"alabama", "state", "Alabama", "Alabama"⟩] ("alabama") ("Alabama")
      [some ("$100K"), none] 0 ("100")
      (by decide) (by decide) (by decide) (by decide) (by decide) (by decide) ?_
    intro k c2 hk hc
    match k, hc with
    | 1, hc => exact Or.inl (Option.some.inj hc).symm
  · refine (C7_sale_price_scan.2.1
      ⟨[("January 2021"), ("February 2021")],
        [(("Alabama"), [some ("$100K"), none])]⟩ 0
      (by decide) (by decide) ?_).trans rfl
    intro k h1 h2
    have hlen : ((⟨[("January 2021"), ("February 2021")],
        [(("Alabama"), [some ("$100K"), none])]⟩ : SPTable)).dates.length = 2 :=
      rfl
    rw [hlen] at h2
    have hk1 : k = 1 := by omega
    subst hk1
    decide
